import Mathlib

/-!
Shallow embedding of the openclaw-mission-control workspace API core:
identifier validation, the board move handler and its persistence step
(`vite-workspace-api.ts`), the git subprocess invocations, and the pure
board-aggregation functions (`src/ui/controllers/project-board.ts`,
`src/ui/controllers/home-data.ts`, the home view's `parseStandup`).
JavaScript strings are modelled as Lean `String`; the string operations
the handlers use (`trim`, `includes`, `split`, `replace`, `toLowerCase`,
lexicographic comparison) are re-implemented structurally over `List Char`
so that every definition evaluates on concrete inputs.
-/

namespace MissionControl

/-! ## Character-list string operations (JS `String.prototype` methods) -/

/-- JS `s.startsWith(pat)` over character lists. -/
def charsStartWith : List Char → List Char → Bool
  | _, [] => true
  | [], _ :: _ => false
  | c :: cs, p :: ps => (c == p) && charsStartWith cs ps

/-- JS `s.includes(pat)` over character lists. -/
def charsInclude : List Char → List Char → Bool
  | [], pat => pat.isEmpty
  | c :: rest, pat => charsStartWith (c :: rest) pat || charsInclude rest pat

/-- JS `s.includes(pat)`. -/
def strContains (s pat : String) : Bool :=
  charsInclude s.data pat.data

/-- Strict code-unit lexicographic order on character lists: the order JS
string comparison (and `localeCompare` on ASCII data) induces. -/
def charsLtB : List Char → List Char → Bool
  | [], [] => false
  | [], _ :: _ => true
  | _ :: _, [] => false
  | c :: cs, d :: ds => c.toNat.blt d.toNat || (c.toNat.beq d.toNat && charsLtB cs ds)

/-- Non-strict code-unit lexicographic order on character lists:
`charsLe a b` models `a.localeCompare(b) <= 0`. -/
def charsLe : List Char → List Char → Bool
  | [], _ => true
  | _ :: _, [] => false
  | c :: cs, d :: ds => c.toNat.blt d.toNat || (c.toNat.beq d.toNat && charsLe cs ds)

/-- JS `String.prototype.trim` (both ends, whitespace). -/
def trimChars (l : List Char) : List Char :=
  ((l.dropWhile Char.isWhitespace).reverse.dropWhile Char.isWhitespace).reverse

/-- JS `content.split(c)` for a one-character separator. -/
def splitChar (c : Char) : List Char → List (List Char)
  | [] => [[]]
  | d :: rest =>
    if d == c then [] :: splitChar c rest
    else
      match splitChar c rest with
      | [] => [[d]]
      | h :: t => (d :: h) :: t

/-- ASCII lower-casing of one character (`String.prototype.toLowerCase` on
the ASCII letters the board data uses). -/
def asciiLower (c : Char) : Char :=
  if 65 ≤ c.toNat && c.toNat ≤ 90 then Char.ofNat (c.toNat + 32) else c

/-- JS `p.toLowerCase()` over character lists. -/
def lowerChars (l : List Char) : List Char :=
  l.map asciiLower

/-- JS `trimmed.replace(/\x2a\x2a/g, "")`: delete every non-overlapping
occurrence of two consecutive asterisks, scanning left to right. -/
def removeStars : List Char → List Char
  | [] => []
  | '*' :: '*' :: rest => removeStars rest
  | c :: rest => c :: removeStars rest

/-- JS `trimmed.replace(/^- /, "")`: strip one leading bullet marker. -/
def stripBullet (l : List Char) : List Char :=
  if charsStartWith l ("- ".data) then l.drop 2 else l

/-! ## JS truthiness helpers for optional string fields -/

/-- JS truthiness of an optional string field: `undefined` and `""` are falsy. -/
def jsTruthy : Option String → Bool
  | none => false
  | some s => !(s == "")

/-- JS `o || d` for an optional string field. -/
def jsOr : Option String → String → String
  | none, d => d
  | some s, d => if s == "" then d else s

/-! ## Identifier validation

The handlers in `vite-workspace-api.ts` gate a request's project id with
`!projectId || projectId.includes("..")` (GET board, git-log) or just
`projectId.includes("..")` (POST move, where the route regex guarantees a
non-empty id). -/

/-- Validation of the GET-board / git-log project id: the request is accepted
exactly when this returns `true` (`vite-workspace-api.ts` lines 70-75, 92-97). -/
def validateProjectIdGet (projectId : String) : Bool :=
  !(projectId == "") && !(strContains projectId "..")

/-- Validation of the move-task project id (`vite-workspace-api.ts` line 36). -/
def validateProjectIdMove (projectId : String) : Bool :=
  !(strContains projectId "..")

/-- The git-diff endpoint's commit-hash charset `/^[a-f0-9]+$/i`. -/
def isHexDigit (c : Char) : Bool :=
  ('a' ≤ c && c ≤ 'f') || ('A' ≤ c && c ≤ 'F') || ('0' ≤ c && c ≤ '9')

/-- Validation of the git-diff commit hash (`vite-workspace-api.ts` line 140). -/
def validateCommitHash (h : String) : Bool :=
  !(h == "") && h.data.all isHexDigit

/-- Modelled from the spec: `validateProjectId(raw)` rejects empty input, any
occurrence of `..`, any path separator character, and any character outside
`[A-Za-z0-9_-]`. Stated only for comparison with the code's validators. -/
def specValidateProjectId (raw : String) : Bool :=
  !(raw == "") && !(strContains raw "..") &&
    !(raw.data.any (fun c => c == '/' || c == '\\')) &&
    raw.data.all (fun c => c.isAlphanum || c == '_' || c == '-')

/-! ## Git subprocess invocations

Both git endpoints call `execSync` with an interpolated template string, so
the command line is interpreted by a shell; the embedding records the exact
command text and the `timeout` option passed to `execSync`. -/

/-- How a subprocess is started: a shell-interpreted command string
(`execSync(cmd, ...)`) or an argument vector with no shell. -/
inductive Invocation where
  | shellExec (cmd : String) (timeoutMs : Nat)
  | argvExec (prog : String) (args : List String) (timeoutMs : Nat)
  deriving DecidableEq

def Invocation.isArgv : Invocation → Bool
  | .argvExec .. => true
  | .shellExec .. => false

def Invocation.timeoutMs : Invocation → Nat
  | .shellExec _ t => t
  | .argvExec _ _ t => t

/-- Whether an identifier occurs inside a shell-interpreted command string of
the invocation. -/
def Invocation.shellTextContains : Invocation → String → Bool
  | .shellExec c _, s => strContains c s
  | .argvExec .., _ => false

/-- The project's git scope `path.join(WORKSPACE, "projects/" + projectId)`. -/
def projectDir (workspace projectId : String) : String :=
  workspace ++ ("/projects/" ++ projectId)

/-- The git-log invocation (`vite-workspace-api.ts` lines 103-106). -/
def gitLogCmd (workspace projectId : String) : Invocation :=
  .shellExec ("git log --format=\"%H|||%an|||%aI|||%s\" -20 -- \"" ++
    (projectDir workspace projectId ++ "\"")) 5000

/-- The per-commit file-count invocation (`vite-workspace-api.ts` lines 117-120). -/
def gitDiffTreeCmd (workspace projectId hash : String) : Invocation :=
  .shellExec ("git diff-tree --no-commit-id --name-only -r " ++
    (hash ++ (" -- \"" ++ (projectDir workspace projectId ++ "\"")))) 3000

/-- The git-diff invocation (`vite-workspace-api.ts` lines 146-150). -/
def gitShowCmd (hash : String) : Invocation :=
  .shellExec ("git show --stat --patch " ++ hash) 5000

/-! ## Data model (`src/ui/controllers/home-data.ts` interfaces) -/

structure TaskComment where
  id : String
  author : String
  authorType : String
  content : String
  timestamp : String
  deriving DecidableEq

structure TaskReviewNotes where
  content : String
  updatedBy : String
  updatedAt : String
  deriving DecidableEq

structure BoardTask where
  id : String
  title : String
  state : String
  assignee : Option String := none
  priority : Option String := none
  created : Option String := none
  updated : Option String := none
  completed : Option String := none
  reviewType : Option String := none
  labels : Option (List String) := none
  description : Option String := none
  comments : Option (List TaskComment) := none
  reviewNotes : Option TaskReviewNotes := none
  deriving DecidableEq

structure BoardData where
  projectId : String
  lastUpdated : Option String := none
  tasks : List BoardTask
  deriving DecidableEq

structure ProjectInfo where
  id : String
  name : String
  status : String
  description : Option String := none
  priority : Option String := none
  created : Option String := none
  deriving DecidableEq

structure ReviewItem where
  taskId : String
  title : String
  projectName : String
  projectId : String
  assignee : String
  priority : String
  updated : String
  reviewNotes : Option String := none
  deriving DecidableEq

/-! ## The move-task handler (`vite-workspace-api.ts` lines 29-67) -/

/-- The in-place mutation of the located task: set the new state, stamp
`updated`, and under `newState === "done"` stamp `completed` unless a truthy
completion timestamp already exists. -/
def moveTaskUpdate (newState now : String) (t : BoardTask) : BoardTask :=
  { t with
      state := newState
      updated := some now
      completed := if newState == "done" then some (jsOr t.completed now) else t.completed }

/-- Mutate the first list entry satisfying `p` (the `find`-then-mutate shape
of the handler). -/
def updateFirst (p : BoardTask → Bool) (f : BoardTask → BoardTask) : List BoardTask → List BoardTask
  | [] => []
  | t :: ts => if p t then f t :: ts else t :: updateFirst p f ts

/-- The read-modify part of the handler on one board document: if a task with
the requested id exists, update it and bump `lastUpdated`; otherwise return
the board unchanged. -/
def applyMoveBoard (b : BoardData) (taskId newState now : String) : BoardData :=
  if b.tasks.any (fun t => t.id == taskId) then
    { b with
        tasks := updateFirst (fun t => t.id == taskId) (moveTaskUpdate newState now) b.tasks
        lastUpdated := some now }
  else b

/-- The board document's path `projects/<id>/board.json` (workspace-relative). -/
def boardPath (projectId : String) : String :=
  "projects/" ++ (projectId ++ "/board.json")

/-- A filesystem effect the handler performs on the workspace. -/
inductive FsOp where
  | write (path : String) (contents : BoardData)
  | rename (src dst : String)
  deriving DecidableEq

/-- The handler's response: the board document with HTTP 200, or an error
object (400 for an invalid id, 500 for a body/read failure). -/
inductive MoveResponse where
  | ok (board : BoardData)
  | invalidId
  | serverError
  deriving DecidableEq

/-- A parsed move request: the project id from the route and the JSON body
(`none` when the body fails to parse). -/
structure MoveRequest where
  projectId : String
  body : Option (String × String)
  deriving DecidableEq

/-- The POST `/api/board/<id>/move` handler: id gate, body parse, board read,
task lookup, mutation and the write it performs. The store maps workspace
paths to parseable board documents; an absent or unparseable file is `none`. -/
def moveHandler (store : String → Option BoardData) (req : MoveRequest) (now : String) :
    MoveResponse × List FsOp :=
  if strContains req.projectId ".." then (.invalidId, [])
  else
    match req.body with
    | none => (.serverError, [])
    | some (taskId, newState) =>
      match store (boardPath req.projectId) with
      | none => (.serverError, [])
      | some board =>
        if board.tasks.any (fun t => t.id == taskId) then
          (.ok (applyMoveBoard board taskId newState now),
            [.write (boardPath req.projectId) (applyMoveBoard board taskId newState now)])
        else (.ok board, [])

/-- Apply a list of filesystem effects to the store. -/
def applyOps (store : String → Option BoardData) : List FsOp → (String → Option BoardData)
  | [] => store
  | .write p b :: rest => applyOps (fun q => if q == p then some b else store q) rest
  | .rename src dst :: rest =>
    applyOps (fun q => if q == dst then store src else if q == src then none else store q) rest

/-- The atomic-replace discipline the spec prescribes for a board write:
write the new document to a sibling temporary location, then rename it onto
the target. -/
def isAtomicReplace (ops : List FsOp) (target : String) : Prop :=
  ∃ tmp b, tmp ≠ target ∧ ops = [FsOp.write tmp b, FsOp.rename tmp target]

/-- Whether an optional timestamp strictly advances to a new value. -/
def strictlyAdvances (old nw : Option String) : Prop :=
  ∃ n, nw = some n ∧ ∀ s, old = some s → charsLtB s.data n.data = true

/-! ## Board aggregation (`src/ui/controllers/project-board.ts`) -/

inductive ColumnKey where
  | backlog
  | planned
  | inProgress
  | review
  | done
  deriving DecidableEq

/-- The state-to-column mapping of `groupTasksByColumn` (lines 190-202). -/
def classify (state : String) : ColumnKey :=
  if state == "done" || state == "completed" then .done
  else if state == "in-progress" || state == "active" then .inProgress
  else if state == "review" || state == "in-review" then .review
  else if state == "planned" then .planned
  else .backlog

/-- `priorityOrder` of both controllers: p0 < p1 < p2 < p3 < anything else. -/
def priorityOrder (p : String) : Nat :=
  let q := lowerChars p.data
  if q == "p0".data then 0
  else if q == "p1".data then 1
  else if q == "p2".data then 2
  else if q == "p3".data then 3
  else 9

structure ColumnGroups where
  backlog : List BoardTask
  planned : List BoardTask
  inProgress : List BoardTask
  review : List BoardTask
  done : List BoardTask
  deriving DecidableEq

def ColumnGroups.col (g : ColumnGroups) : ColumnKey → List BoardTask
  | .backlog => g.backlog
  | .planned => g.planned
  | .inProgress => g.inProgress
  | .review => g.review
  | .done => g.done

/-- `groups[col].push(task)`. -/
def addTask (g : ColumnGroups) : ColumnKey → BoardTask → ColumnGroups
  | .backlog, t => { g with backlog := g.backlog ++ [t] }
  | .planned, t => { g with planned := g.planned ++ [t] }
  | .inProgress, t => { g with inProgress := g.inProgress ++ [t] }
  | .review, t => { g with review := g.review ++ [t] }
  | .done, t => { g with done := g.done ++ [t] }

/-- `task.completed || task.updated || task.created || ""`. -/
def effectiveDate (t : BoardTask) : String :=
  jsOr t.completed (jsOr t.updated (jsOr t.created ""))

/-- The done-window filter (lines 205-210): a done-column task is dropped when
`showAllDone` is false and its non-empty effective date parses to a time
before `sevenDaysAgo`. `parseDate` stands for `new Date(d).getTime()`. -/
def keepTask (showAllDone : Bool) (sevenDaysAgo : Int) (parseDate : String → Int)
    (t : BoardTask) : Bool :=
  if classify t.state == ColumnKey.done && !showAllDone then
    !(!(effectiveDate t == "") && decide (parseDate (effectiveDate t) < sevenDaysAgo))
  else true

/-- One iteration of the grouping loop (lines 189-213). -/
def pushStep (showAllDone : Bool) (sevenDaysAgo : Int) (parseDate : String → Int)
    (g : ColumnGroups) (t : BoardTask) : ColumnGroups :=
  if keepTask showAllDone sevenDaysAgo parseDate t then addTask g (classify t.state) t else g

/-- The column sort comparator (lines 217-221) as a non-strict order:
priority rank first, then ascending created date. -/
def taskLE (a b : BoardTask) : Prop :=
  priorityOrder (jsOr a.priority "") < priorityOrder (jsOr b.priority "") ∨
    (priorityOrder (jsOr a.priority "") = priorityOrder (jsOr b.priority "") ∧
      charsLe (jsOr a.created "").data (jsOr b.created "").data = true)

instance : DecidableRel taskLE := fun a b => by unfold taskLE; infer_instance

def sortCols (g : ColumnGroups) : ColumnGroups where
  backlog := g.backlog.insertionSort taskLE
  planned := g.planned.insertionSort taskLE
  inProgress := g.inProgress.insertionSort taskLE
  review := g.review.insertionSort taskLE
  done := g.done.insertionSort taskLE

/-- The grouping loop over all tasks, starting from empty columns. -/
def groupColsRaw (tasks : List BoardTask) (showAllDone : Bool) (sevenDaysAgo : Int)
    (parseDate : String → Int) : ColumnGroups :=
  tasks.foldl (pushStep showAllDone sevenDaysAgo parseDate) ⟨[], [], [], [], []⟩

/-- The final backlog truncation (lines 225-227): keep only the first ten
sorted backlog entries when over ten and `showAllBacklog` is off. -/
def truncateBacklog (showAllBacklog : Bool) (g : ColumnGroups) : ColumnGroups :=
  if !showAllBacklog && decide (10 < g.backlog.length) then
    { g with backlog := g.backlog.take 10 }
  else g

/-- `groupTasksByColumn(tasks, showAllDone, showAllBacklog)` with the clock
and date parser passed explicitly (`Date.now()`, `new Date(_).getTime()`):
group, sort every column, then truncate the backlog. -/
def groupTasksByColumn (tasks : List BoardTask) (showAllDone showAllBacklog : Bool)
    (now : Int) (parseDate : String → Int) : ColumnGroups :=
  truncateBacklog showAllBacklog
    (sortCols (groupColsRaw tasks showAllDone (now - 7 * 24 * 60 * 60 * 1000) parseDate))

/-! ## The review queue (`src/ui/controllers/home-data.ts`, loadHomeData) -/

/-- `board?.tasks || []`. -/
def obTasks : Option BoardData → List BoardTask
  | some b => b.tasks
  | none => []

/-- Review-queue membership (line 409): in a review state, or sam-required
and not in state `"done"`. -/
def reviewQualifies (t : BoardTask) : Bool :=
  (t.state == "review" || t.state == "in-review") ||
    ((t.reviewType == some "sam-required") && !(t.state == "done"))

/-- The pushed `ReviewItem` (lines 410-419). -/
def toReviewItem (p : ProjectInfo) (t : BoardTask) : ReviewItem where
  taskId := t.id
  title := t.title
  projectName := p.name
  projectId := p.id
  assignee := jsOr t.assignee "unassigned"
  priority := jsOr t.priority "p3"
  updated := jsOr t.updated (jsOr t.created "")
  reviewNotes := t.reviewNotes.map TaskReviewNotes.content

/-- The collection loop over projects and their fetched boards. -/
def collectReviewItems (input : List (ProjectInfo × Option BoardData)) : List ReviewItem :=
  input.foldl
    (fun acc pb => acc ++ ((obTasks pb.2).filter reviewQualifies).map (toReviewItem pb.1)) []

/-- The review-queue sort comparator (lines 433-437) as a non-strict order:
priority rank ascending, ties by updated descending. -/
def queueLE (a b : ReviewItem) : Prop :=
  priorityOrder a.priority < priorityOrder b.priority ∨
    (priorityOrder a.priority = priorityOrder b.priority ∧
      charsLe b.updated.data a.updated.data = true)

instance : DecidableRel queueLE := fun a b => by unfold queueLE; infer_instance

/-- The cross-project review queue: collect, then sort. -/
def reviewQueue (input : List (ProjectInfo × Option BoardData)) : List ReviewItem :=
  (collectReviewItems input).insertionSort queueLE

/-! ## Standup parsing (`parseStandup` in the home view) -/

structure StandupSections where
  completed : List String
  inProgress : List String
  needsAttention : List String
  deriving DecidableEq

/-- One iteration of the `parseStandup` loop: heading keywords and markers
first, then bullets appended to the current section. -/
def standupStep (acc : StandupSections × String) (line : List Char) : StandupSections × String :=
  let secs := acc.1
  let currentSection := acc.2
  let trimmed := trimChars line
  if charsInclude trimmed ("Completed".data) || charsInclude trimmed ("✅".data) then
    (secs, "completed")
  else if charsInclude trimmed ("In Progress".data) || charsInclude trimmed ("🔨".data) then
    (secs, "inProgress")
  else if charsInclude trimmed ("Needs Attention".data) || charsInclude trimmed ("🚨".data) then
    (secs, "needsAttention")
  else if charsStartWith trimmed ("- **".data) || charsStartWith trimmed ("- ".data) then
    let text : String := ⟨removeStars (stripBullet trimmed)⟩
    if currentSection == "completed" then
      ({ secs with completed := secs.completed ++ [text] }, currentSection)
    else if currentSection == "inProgress" then
      ({ secs with inProgress := secs.inProgress ++ [text] }, currentSection)
    else if currentSection == "needsAttention" then
      ({ secs with needsAttention := secs.needsAttention ++ [text] }, currentSection)
    else (secs, currentSection)
  else (secs, currentSection)

/-- `parseStandup(content)`: a single pass over the lines with one
current-section variable, starting outside any section. -/
def parseStandup (content : String) : StandupSections :=
  ((splitChar '\n' content.data).foldl standupStep (⟨[], [], []⟩, "")).1

inductive SecName where
  | completed
  | inProgress
  | needsAttention
  deriving DecidableEq

/-- How one line drives the machine: a heading (a line containing a section
keyword or marker, in the handler's precedence order), a bullet carrying its
cleaned text, or an inert line. -/
inductive LineKind where
  | heading (sec : SecName)
  | bullet (text : String)
  | plain
  deriving DecidableEq

/-- Classification of one line for the specification machine: keyword and
marker headings take precedence over the bullet shape; a bullet's text is the
trimmed line with the leading marker and all bold markup removed. -/
def lineKind (line : List Char) : LineKind :=
  let trimmed := trimChars line
  if charsInclude trimmed ("Completed".data) || charsInclude trimmed ("✅".data) then
    .heading .completed
  else if charsInclude trimmed ("In Progress".data) || charsInclude trimmed ("🔨".data) then
    .heading .inProgress
  else if charsInclude trimmed ("Needs Attention".data) || charsInclude trimmed ("🚨".data) then
    .heading .needsAttention
  else if charsStartWith trimmed ("- ".data) then
    .bullet ⟨removeStars (stripBullet trimmed)⟩
  else .plain

def appendSec (secs : StandupSections) (sec : SecName) (text : String) : StandupSections :=
  match sec with
  | .completed => { secs with completed := secs.completed ++ [text] }
  | .inProgress => { secs with inProgress := secs.inProgress ++ [text] }
  | .needsAttention => { secs with needsAttention := secs.needsAttention ++ [text] }

/-- The specification-shaped state machine: a heading switches the current
section, a bullet is appended to the current section and dropped when no
section is current yet, anything else is inert. -/
def specStandupStep (acc : StandupSections × Option SecName) (line : List Char) :
    StandupSections × Option SecName :=
  match lineKind line with
  | .heading sec => (acc.1, some sec)
  | .bullet text =>
    match acc.2 with
    | some sec => (appendSec acc.1 sec text, acc.2)
    | none => acc
  | .plain => acc

/-- Running the specification machine over the same line split. -/
def specParseStandup (content : String) : StandupSections :=
  ((splitChar '\n' content.data).foldl specStandupStep (⟨[], [], []⟩, none)).1

/-- The handler's string encoding of the machine's current section. -/
def encodeSec : Option SecName → String
  | none => ""
  | some .completed => "completed"
  | some .inProgress => "inProgress"
  | some .needsAttention => "needsAttention"

/-! ## Concrete workspace data used by witnesses and counterexamples -/

def demoTask : BoardTask :=
  { id := "t1", title := "Fix login flow", state := "in-progress" }

def demoTask2 : BoardTask :=
  { id := "t2", title := "Write docs", state := "planned",
    priority := some "p1", created := some "2025-04-01T00:00:00Z" }

def demoBoard : BoardData :=
  { projectId := "proj-1", lastUpdated := some "2025-05-01T09:00:00Z",
    tasks := [demoTask, demoTask2] }

def demoStore : String → Option BoardData := fun p =>
  if p == boardPath "proj-1" then some demoBoard else none

def reviewProject : ProjectInfo :=
  { id := "proj-1", name := "Mission Control", status := "active" }

def samTaskCompleted : BoardTask :=
  { id := "t7", title := "Audit pass", state := "completed",
    reviewType := some "sam-required", updated := some "2025-03-02T00:00:00Z" }

def noPriorityTask : BoardTask :=
  { id := "t8", title := "Review A", state := "review",
    updated := some "2025-03-05T00:00:00Z" }

def p3Task : BoardTask :=
  { id := "t9", title := "Review B", state := "review",
    priority := some "p3", updated := some "2025-03-01T00:00:00Z" }

end MissionControl

namespace MissionControl

/-! ## String-operation lemmas -/

theorem charsStartWith_nil (s : List Char) : charsStartWith s [] = true := by
  cases s <;> rfl

theorem charsStartWith_append (p r : List Char) : charsStartWith (p ++ r) p = true := by
  induction p with
  | nil => exact charsStartWith_nil r
  | cons c cs ih => simp [charsStartWith, ih]

theorem charsStartWith_refl (p : List Char) : charsStartWith p p = true := by
  induction p with
  | nil => rfl
  | cons c cs ih => simp [charsStartWith, ih]

theorem charsInclude_of_startsWith {s pat : List Char} (h : charsStartWith s pat = true) :
    charsInclude s pat = true := by
  cases s with
  | nil =>
    cases pat with
    | nil => rfl
    | cons p ps => simp [charsStartWith] at h
  | cons c rest => simp [charsInclude, h]

theorem charsInclude_append_of (a : List Char) {b s : List Char}
    (h : charsInclude b s = true) : charsInclude (a ++ b) s = true := by
  induction a with
  | nil => simpa using h
  | cons c rest ih => simp [charsInclude, ih]

theorem charsInclude_append_mid (a s b : List Char) :
    charsInclude (a ++ (s ++ b)) s = true :=
  charsInclude_append_of a (charsInclude_of_startsWith (charsStartWith_append s b))

theorem charsLe_total (a : List Char) : ∀ b, charsLe a b = true ∨ charsLe b a = true := by
  induction a with
  | nil => intro b; left; rfl
  | cons c cs ih =>
    intro b
    cases b with
    | nil => right; rfl
    | cons d ds =>
      rcases Nat.lt_trichotomy c.toNat d.toNat with h | h | h
      · left; simp [charsLe, Nat.blt_eq, h]
      · rcases ih ds with hr | hr
        · left; simp [charsLe, Nat.blt_eq, Nat.beq_eq, h, hr]
        · right; simp [charsLe, Nat.blt_eq, Nat.beq_eq, h, hr]
      · right; simp [charsLe, Nat.blt_eq, h]

theorem charsLe_trans (a : List Char) :
    ∀ b c, charsLe a b = true → charsLe b c = true → charsLe a c = true := by
  induction a with
  | nil => intro b c _ _; rfl
  | cons x xs ih =>
    intro b c h₁ h₂
    cases b with
    | nil => simp [charsLe] at h₁
    | cons y ys =>
      cases c with
      | nil => simp [charsLe] at h₂
      | cons z zs =>
        simp only [charsLe, Nat.blt_eq, Nat.beq_eq, Bool.or_eq_true, Bool.and_eq_true,
          decide_eq_true_eq] at h₁ h₂ ⊢
        rcases h₁ with h₁ | ⟨e₁, r₁⟩ <;> rcases h₂ with h₂ | ⟨e₂, r₂⟩
        · exact Or.inl (by omega)
        · exact Or.inl (by omega)
        · exact Or.inl (by omega)
        · exact Or.inr ⟨by omega, ih ys zs r₁ r₂⟩

/-! ## C3 and C1 -/

/-- C3: the code's validation accepts `"proj/evil"` (it only rejects empty ids
and ids containing `".."`), while the validator the spec describes rejects it;
on the other published test vectors the two agree. -/
theorem projectId_validation_divergence :
    validateProjectIdGet "proj/evil" = true ∧
    specValidateProjectId "proj/evil" = false ∧
    validateProjectIdGet "" = false ∧
    validateProjectIdGet "../etc/passwd" = false ∧
    validateProjectIdMove "../etc/passwd" = false ∧
    validateProjectIdGet "proj-1" = true ∧
    validateProjectIdGet "proj_2" = true ∧
    specValidateProjectId "proj-1" = true ∧
    specValidateProjectId "proj_2" = true := by
  decide

/-- C1: all three git invocations are shell-interpreted command strings with
the identifier concatenated into the command line, never an argument vector;
the `execSync` timeouts are 5000 ms for the log and diff queries and 3000 ms
for the per-commit file-count query. -/
theorem git_invocations_are_shell_strings (workspace projectId hash : String) :
    (gitLogCmd workspace projectId).isArgv = false ∧
    (gitDiffTreeCmd workspace projectId hash).isArgv = false ∧
    (gitShowCmd hash).isArgv = false ∧
    (gitLogCmd workspace projectId).timeoutMs = 5000 ∧
    (gitDiffTreeCmd workspace projectId hash).timeoutMs = 3000 ∧
    (gitShowCmd hash).timeoutMs = 5000 ∧
    (gitLogCmd workspace projectId).shellTextContains projectId = true ∧
    (gitDiffTreeCmd workspace projectId hash).shellTextContains hash = true ∧
    (gitShowCmd hash).shellTextContains hash = true := by
  refine ⟨rfl, rfl, rfl, rfl, rfl, rfl, ?_, ?_, ?_⟩
  · show strContains _ projectId = true
    unfold strContains projectDir
    simp only [String.data_append, List.append_assoc]
    exact charsInclude_append_of _ (charsInclude_append_of _ (charsInclude_append_of _
      (charsInclude_of_startsWith (charsStartWith_append _ _))))
  · show strContains _ hash = true
    unfold strContains projectDir
    simp only [String.data_append, List.append_assoc]
    exact charsInclude_append_of _
      (charsInclude_of_startsWith (charsStartWith_append _ _))
  · show strContains _ hash = true
    unfold strContains
    simp only [String.data_append, List.append_assoc]
    exact charsInclude_append_of _
      (charsInclude_of_startsWith (by simpa using charsStartWith_refl hash.data))

/-! ## Move-handler lemmas -/

theorem list_find?_split {α : Type} {p : α → Bool} :
    ∀ {l : List α} {t : α}, l.find? p = some t →
      ∃ l₁ l₂, l = l₁ ++ t :: l₂ ∧ (∀ x ∈ l₁, p x = false) ∧ p t = true := by
  intro l
  induction l with
  | nil => intro t h; simp [List.find?] at h
  | cons a as ih =>
    intro t h
    by_cases hp : p a
    · rw [List.find?_cons_of_pos _ hp] at h
      obtain rfl : a = t := by injection h
      exact ⟨[], as, rfl, by simp, hp⟩
    · rw [List.find?_cons_of_neg _ hp] at h
      obtain ⟨l₁, l₂, rfl, hl₁, hpt⟩ := ih h
      refine ⟨a :: l₁, l₂, rfl, ?_, hpt⟩
      intro x hx
      rcases List.mem_cons.mp hx with rfl | hx
      · simpa using hp
      · exact hl₁ x hx

theorem updateFirst_append {p : BoardTask → Bool} {f : BoardTask → BoardTask}
    {l₁ : List BoardTask} {t : BoardTask} (l₂ : List BoardTask)
    (h₁ : ∀ x ∈ l₁, p x = false) (hpt : p t = true) :
    updateFirst p f (l₁ ++ t :: l₂) = l₁ ++ f t :: l₂ := by
  induction l₁ with
  | nil => simp [updateFirst, hpt]
  | cons a as ih =>
    have ha : p a = false := h₁ a (by simp)
    simp [updateFirst, ha, ih (fun x hx => h₁ x (by simp [hx]))]

theorem find?_append_first {p : BoardTask → Bool} {l₁ : List BoardTask} {u : BoardTask}
    (l₂ : List BoardTask) (h₁ : ∀ x ∈ l₁, p x = false) (hpu : p u = true) :
    (l₁ ++ u :: l₂).find? p = some u := by
  induction l₁ with
  | nil => simp [List.find?_cons_of_pos _ hpu]
  | cons a as ih =>
    have ha : p a = false := h₁ a (by simp)
    rw [List.cons_append, List.find?_cons_of_neg _ (by simp [ha])]
    exact ih (fun x hx => h₁ x (by simp [hx]))

theorem any_of_find? {p : BoardTask → Bool} {l : List BoardTask} {t : BoardTask}
    (h : l.find? p = some t) : l.any p = true := by
  obtain ⟨l₁, l₂, rfl, _, hpt⟩ := list_find?_split h
  exact List.any_eq_true.mpr ⟨t, by simp, hpt⟩

theorem applyMoveBoard_found {b : BoardData} {tid : String} {t : BoardTask} (ns now : String)
    (hfind : b.tasks.find? (fun x => x.id == tid) = some t) :
    ∃ l₁ l₂,
      b.tasks = l₁ ++ t :: l₂ ∧
      (applyMoveBoard b tid ns now).tasks = l₁ ++ moveTaskUpdate ns now t :: l₂ ∧
      (applyMoveBoard b tid ns now).lastUpdated = some now ∧
      (applyMoveBoard b tid ns now).projectId = b.projectId ∧
      (applyMoveBoard b tid ns now).tasks.find? (fun x => x.id == tid) =
        some (moveTaskUpdate ns now t) := by
  obtain ⟨l₁, l₂, hsplit, hl₁, hpt⟩ := list_find?_split hfind
  have hany : b.tasks.any (fun x => x.id == tid) = true := any_of_find? hfind
  have happ : applyMoveBoard b tid ns now =
      { b with
          tasks := updateFirst (fun x => x.id == tid) (moveTaskUpdate ns now) b.tasks
          lastUpdated := some now } := by
    simp [applyMoveBoard, hany]
  have htasks : (applyMoveBoard b tid ns now).tasks = l₁ ++ moveTaskUpdate ns now t :: l₂ := by
    rw [happ]
    show updateFirst (fun x => x.id == tid) (moveTaskUpdate ns now) b.tasks = _
    rw [hsplit]
    exact updateFirst_append l₂ hl₁ hpt
  refine ⟨l₁, l₂, hsplit, htasks, by rw [happ], by rw [happ], ?_⟩
  rw [htasks]
  exact find?_append_first l₂ hl₁ hpt

theorem moveHandler_ops_shape (store : String → Option BoardData) (req : MoveRequest)
    (now : String) :
    (moveHandler store req now).2 = [] ∨
    ∃ b', moveHandler store req now =
      (MoveResponse.ok b', [FsOp.write (boardPath req.projectId) b']) := by
  unfold moveHandler
  split
  · exact Or.inl rfl
  · split
    · exact Or.inl rfl
    · split
      · exact Or.inl rfl
      · split
        · exact Or.inr ⟨_, rfl⟩
        · exact Or.inl rfl

/-! ## C2, C4, C5, C8, C10 -/

/-- C2: the persistence step of a successful move is one in-place write of the
board file itself; it is not a write to a sibling temporary location followed
by a rename onto the target. -/
theorem board_write_is_single_in_place_write :
    (moveHandler demoStore ⟨"proj-1", some ("t1", "done")⟩ "2025-05-02T00:00:00Z").2 =
      [FsOp.write (boardPath "proj-1")
        (applyMoveBoard demoBoard "t1" "done" "2025-05-02T00:00:00Z")] ∧
    ¬ isAtomicReplace
      (moveHandler demoStore ⟨"proj-1", some ("t1", "done")⟩ "2025-05-02T00:00:00Z").2
      (boardPath "proj-1") := by
  refine ⟨by decide, ?_⟩
  rintro ⟨tmp, bb, _, heq⟩
  have h1 : (moveHandler demoStore ⟨"proj-1", some ("t1", "done")⟩
      "2025-05-02T00:00:00Z").2.length = 1 := by decide
  rw [heq] at h1
  simp at h1

/-- C4 (amended): a well-formed move request whose board contains the task
responds with the updated board and writes it back; the task's state becomes
`newState`, its `updated` is stamped, `completed` is stamped exactly when
`newState` is `"done"` and no truthy completion timestamp existed (an
existing one is preserved), and the board's `lastUpdated` is stamped. -/
theorem move_done_semantics (store : String → Option BoardData) (pid tid ns now : String)
    (b : BoardData) (t : BoardTask)
    (hdots : strContains pid ".." = false)
    (hb : store (boardPath pid) = some b)
    (hfind : b.tasks.find? (fun x => x.id == tid) = some t) :
    moveHandler store ⟨pid, some (tid, ns)⟩ now =
      (MoveResponse.ok (applyMoveBoard b tid ns now),
        [FsOp.write (boardPath pid) (applyMoveBoard b tid ns now)]) ∧
    (applyMoveBoard b tid ns now).lastUpdated = some now ∧
    ∃ t', (applyMoveBoard b tid ns now).tasks.find? (fun x => x.id == tid) = some t' ∧
      t'.state = ns ∧
      t'.updated = some now ∧
      (ns = "done" → jsTruthy t.completed = false → t'.completed = some now) ∧
      (ns = "done" → jsTruthy t.completed = true → t'.completed = t.completed) ∧
      (ns ≠ "done" → t'.completed = t.completed) := by
  have hany : b.tasks.any (fun x => x.id == tid) = true := any_of_find? hfind
  obtain ⟨l₁, l₂, _, _, hlast, _, hfind'⟩ := applyMoveBoard_found ns now hfind
  refine ⟨by simp [moveHandler, hdots, hb, hany], hlast,
    moveTaskUpdate ns now t, hfind', rfl, rfl, ?_, ?_, ?_⟩
  · intro hns hfalse
    subst hns
    cases hc : t.completed with
    | none => simp [moveTaskUpdate, hc, jsOr]
    | some s =>
      have hs : (s == "") = true := by rw [hc] at hfalse; simpa [jsTruthy] using hfalse
      simp [moveTaskUpdate, hc, jsOr, hs]
  · intro hns htrue
    subst hns
    cases hc : t.completed with
    | none => rw [hc] at htrue; simp [jsTruthy] at htrue
    | some s =>
      have hs : (s == "") = false := by rw [hc] at htrue; simpa [jsTruthy] using htrue
      simp [moveTaskUpdate, hc, jsOr, hs]
  · intro hns
    have h : (ns == "done") = false := beq_eq_false_iff_ne.mpr hns
    simp [moveTaskUpdate, h]

/-- C4 witness: the moved demo task at a concrete request. -/
theorem move_done_semantics_witness :
    moveHandler demoStore ⟨"proj-1", some ("t1", "done")⟩ "2025-05-02T00:00:00Z" =
      (MoveResponse.ok (applyMoveBoard demoBoard "t1" "done" "2025-05-02T00:00:00Z"),
        [FsOp.write (boardPath "proj-1")
          (applyMoveBoard demoBoard "t1" "done" "2025-05-02T00:00:00Z")]) ∧
    (applyMoveBoard demoBoard "t1" "done" "2025-05-02T00:00:00Z").lastUpdated =
      some "2025-05-02T00:00:00Z" ∧
    ∃ t', (applyMoveBoard demoBoard "t1" "done" "2025-05-02T00:00:00Z").tasks.find?
        (fun x => x.id == "t1") = some t' ∧
      t'.state = "done" ∧
      t'.updated = some "2025-05-02T00:00:00Z" ∧
      ("done" = "done" → jsTruthy demoTask.completed = false →
        t'.completed = some "2025-05-02T00:00:00Z") ∧
      ("done" = "done" → jsTruthy demoTask.completed = true →
        t'.completed = demoTask.completed) ∧
      ("done" ≠ "done" → t'.completed = demoTask.completed) :=
  move_done_semantics demoStore "proj-1" "t1" "done" "2025-05-02T00:00:00Z" demoBoard demoTask
    (by decide) (by decide) (by decide)

/-- C4 counterexample: moving a task with no completion timestamp to state
`"completed"` — a completed state by the claim's definition — leaves its
completion timestamp unset, because the handler only checks for `"done"`. -/
theorem completed_state_leaves_completed_unset :
    (applyMoveBoard demoBoard "t1" "completed" "2025-05-02T00:00:00Z").tasks.find?
        (fun x => x.id == "t1") =
      some (moveTaskUpdate "completed" "2025-05-02T00:00:00Z" demoTask) ∧
    (moveTaskUpdate "completed" "2025-05-02T00:00:00Z" demoTask).state = "completed" ∧
    demoTask.completed = none ∧
    (moveTaskUpdate "completed" "2025-05-02T00:00:00Z" demoTask).completed = none := by
  decide

/-- C5 (amended): an invalid-id or server-error response carries no
filesystem effect, so the store is untouched; a request naming a task id the
board does not contain applies no mutation either, but is answered with the
unchanged board document as a success payload rather than an error object. -/
theorem move_failure_no_mutation (store : String → Option BoardData) (req : MoveRequest)
    (now : String) :
    ((moveHandler store req now).1 = MoveResponse.invalidId →
      (moveHandler store req now).2 = [] ∧
      applyOps store (moveHandler store req now).2 = store) ∧
    ((moveHandler store req now).1 = MoveResponse.serverError →
      (moveHandler store req now).2 = [] ∧
      applyOps store (moveHandler store req now).2 = store) ∧
    (∀ b tid ns, strContains req.projectId ".." = false →
      req.body = some (tid, ns) →
      store (boardPath req.projectId) = some b →
      b.tasks.any (fun x => x.id == tid) = false →
      moveHandler store req now = (MoveResponse.ok b, []) ∧
      applyOps store (moveHandler store req now).2 = store) := by
  refine ⟨?_, ?_, ?_⟩
  · intro h
    rcases moveHandler_ops_shape store req now with h2 | ⟨b', heq⟩
    · exact ⟨h2, by rw [h2]; rfl⟩
    · rw [heq] at h; exact absurd h (by simp)
  · intro h
    rcases moveHandler_ops_shape store req now with h2 | ⟨b', heq⟩
    · exact ⟨h2, by rw [h2]; rfl⟩
    · rw [heq] at h; exact absurd h (by simp)
  · intro b tid ns hdots hbody hb hany
    obtain ⟨pid, body⟩ := req
    have heq : moveHandler store ⟨pid, body⟩ now = (MoveResponse.ok b, []) := by
      simp only at hdots hbody hb
      simp [moveHandler, hdots, hbody, hb, hany]
    exact ⟨heq, by rw [heq]; rfl⟩

/-- C5 counterexample: a move request naming a task id absent from the board
is answered with the board document itself as a success payload, not an error
object (no mutation is applied). -/
theorem missing_task_returns_board_not_error :
    moveHandler demoStore ⟨"proj-1", some ("t9", "done")⟩ "2025-05-02T00:00:00Z" =
      (MoveResponse.ok demoBoard, []) ∧
    demoBoard.tasks.all (fun t => !(t.id == "t9")) = true := by
  decide

/-- C10: a successful move leaves every other task untouched; on the matched
task only `state`, `updated` and `completed` can change — all other fields
are preserved — and at the board's top level only `lastUpdated` changes
besides the tasks sequence. -/
theorem move_frame_condition (b : BoardData) (tid ns now : String) (t : BoardTask)
    (hfind : b.tasks.find? (fun x => x.id == tid) = some t) :
    ∃ l₁ l₂,
      b.tasks = l₁ ++ t :: l₂ ∧
      (applyMoveBoard b tid ns now).tasks = l₁ ++ moveTaskUpdate ns now t :: l₂ ∧
      (moveTaskUpdate ns now t).id = t.id ∧
      (moveTaskUpdate ns now t).title = t.title ∧
      (moveTaskUpdate ns now t).assignee = t.assignee ∧
      (moveTaskUpdate ns now t).priority = t.priority ∧
      (moveTaskUpdate ns now t).created = t.created ∧
      (moveTaskUpdate ns now t).reviewType = t.reviewType ∧
      (moveTaskUpdate ns now t).labels = t.labels ∧
      (moveTaskUpdate ns now t).description = t.description ∧
      (moveTaskUpdate ns now t).comments = t.comments ∧
      (moveTaskUpdate ns now t).reviewNotes = t.reviewNotes ∧
      (applyMoveBoard b tid ns now).projectId = b.projectId := by
  obtain ⟨l₁, l₂, h1, h2, _, h4, _⟩ := applyMoveBoard_found ns now hfind
  exact ⟨l₁, l₂, h1, h2, rfl, rfl, rfl, rfl, rfl, rfl, rfl, rfl, rfl, rfl, h4⟩

/-- C10 witness: the frame condition at a concrete board and request. -/
theorem move_frame_condition_witness :
    ∃ l₁ l₂,
      demoBoard.tasks = l₁ ++ demoTask :: l₂ ∧
      (applyMoveBoard demoBoard "t1" "planned" "2025-05-02T00:00:00Z").tasks =
        l₁ ++ moveTaskUpdate "planned" "2025-05-02T00:00:00Z" demoTask :: l₂ ∧
      (moveTaskUpdate "planned" "2025-05-02T00:00:00Z" demoTask).id = demoTask.id ∧
      (moveTaskUpdate "planned" "2025-05-02T00:00:00Z" demoTask).title = demoTask.title ∧
      (moveTaskUpdate "planned" "2025-05-02T00:00:00Z" demoTask).assignee = demoTask.assignee ∧
      (moveTaskUpdate "planned" "2025-05-02T00:00:00Z" demoTask).priority = demoTask.priority ∧
      (moveTaskUpdate "planned" "2025-05-02T00:00:00Z" demoTask).created = demoTask.created ∧
      (moveTaskUpdate "planned" "2025-05-02T00:00:00Z" demoTask).reviewType =
        demoTask.reviewType ∧
      (moveTaskUpdate "planned" "2025-05-02T00:00:00Z" demoTask).labels = demoTask.labels ∧
      (moveTaskUpdate "planned" "2025-05-02T00:00:00Z" demoTask).description =
        demoTask.description ∧
      (moveTaskUpdate "planned" "2025-05-02T00:00:00Z" demoTask).comments = demoTask.comments ∧
      (moveTaskUpdate "planned" "2025-05-02T00:00:00Z" demoTask).reviewNotes =
        demoTask.reviewNotes ∧
      (applyMoveBoard demoBoard "t1" "planned" "2025-05-02T00:00:00Z").projectId =
        demoBoard.projectId :=
  move_frame_condition demoBoard "t1" "planned" "2025-05-02T00:00:00Z" demoTask (by decide)

/-- C8: moving a task from its state to any state and back restores its
column classification, and each of the two moves strictly advances its
`updated` timestamp (given a strictly advancing clock). -/
theorem move_roundtrip_classification (b : BoardData) (tid stB now₁ now₂ : String)
    (t : BoardTask)
    (hfind : b.tasks.find? (fun x => x.id == tid) = some t)
    (hup : ∀ s, t.updated = some s → charsLtB s.data now₁.data = true)
    (hnow : charsLtB now₁.data now₂.data = true) :
    ∃ t₁ t₂,
      (applyMoveBoard b tid stB now₁).tasks.find? (fun x => x.id == tid) = some t₁ ∧
      (applyMoveBoard (applyMoveBoard b tid stB now₁) tid t.state now₂).tasks.find?
        (fun x => x.id == tid) = some t₂ ∧
      classify t₂.state = classify t.state ∧
      strictlyAdvances t.updated t₁.updated ∧
      strictlyAdvances t₁.updated t₂.updated := by
  obtain ⟨_, _, _, _, _, _, hfind₁⟩ := applyMoveBoard_found stB now₁ hfind
  obtain ⟨_, _, _, _, _, _, hfind₂⟩ := applyMoveBoard_found t.state now₂ hfind₁
  refine ⟨_, _, hfind₁, hfind₂, rfl, ⟨now₁, rfl, hup⟩, ⟨now₂, rfl, ?_⟩⟩
  intro s hs
  have he : now₁ = s := by simpa [moveTaskUpdate] using hs
  rw [← he]
  exact hnow

/-- C8 witness: a concrete round trip through state `"done"` and back. -/
theorem move_roundtrip_classification_witness :
    ∃ t₁ t₂,
      (applyMoveBoard demoBoard "t1" "done" "2025-05-02T00:00:00Z").tasks.find?
        (fun x => x.id == "t1") = some t₁ ∧
      (applyMoveBoard (applyMoveBoard demoBoard "t1" "done" "2025-05-02T00:00:00Z")
          "t1" demoTask.state "2025-05-03T00:00:00Z").tasks.find?
        (fun x => x.id == "t1") = some t₂ ∧
      classify t₂.state = classify demoTask.state ∧
      strictlyAdvances demoTask.updated t₁.updated ∧
      strictlyAdvances t₁.updated t₂.updated :=
  move_roundtrip_classification demoBoard "t1" "done" "2025-05-02T00:00:00Z"
    "2025-05-03T00:00:00Z" demoTask (by decide)
    (by intro s h; simp [demoTask] at h) (by decide)

/-! ## C6: the review queue -/

theorem foldl_append_acc {α β : Type} (f : α → List β) (l : List α) (acc : List β) :
    l.foldl (fun a x => a ++ f x) acc = acc ++ l.flatMap f := by
  induction l generalizing acc with
  | nil => simp
  | cons x xs ih => simp [ih, List.append_assoc]

theorem collectReviewItems_eq (input : List (ProjectInfo × Option BoardData)) :
    collectReviewItems input =
      input.flatMap (fun pb => ((obTasks pb.2).filter reviewQualifies).map (toReviewItem pb.1)) := by
  unfold collectReviewItems
  rw [foldl_append_acc]
  simp

instance : IsTrans ReviewItem queueLE where
  trans := by
    intro a b c hab hbc
    simp only [queueLE] at hab hbc ⊢
    rcases hab with h | ⟨e, r⟩ <;> rcases hbc with h' | ⟨e', r'⟩
    · exact Or.inl (by omega)
    · exact Or.inl (by omega)
    · exact Or.inl (by omega)
    · exact Or.inr ⟨by omega, charsLe_trans _ _ _ r' r⟩

instance : IsTotal ReviewItem queueLE where
  total := by
    intro a b
    simp only [queueLE]
    rcases Nat.lt_trichotomy (priorityOrder a.priority) (priorityOrder b.priority) with h | h | h
    · exact Or.inl (Or.inl h)
    · rcases charsLe_total a.updated.data b.updated.data with hc | hc
      · exact Or.inr (Or.inr ⟨h.symm, hc⟩)
      · exact Or.inl (Or.inr ⟨h, hc⟩)
    · exact Or.inr (Or.inl h)

/-- C6 (amended): the review queue contains exactly the items built from a
task of one of the fetched boards that is in state `"review"` or
`"in-review"`, or carries `reviewType == "sam-required"` with state other
than `"done"` (a sam-required task in state `"completed"` still qualifies);
the queue is sorted by priority rank ascending — where a missing task
priority has already been defaulted to `"p3"` — with ties broken by the
item's updated field descending. -/
theorem reviewQueue_membership_and_order (input : List (ProjectInfo × Option BoardData)) :
    (∀ x, x ∈ reviewQueue input ↔
      ∃ p ob t, (p, ob) ∈ input ∧ t ∈ obTasks ob ∧ reviewQualifies t = true ∧
        x = toReviewItem p t) ∧
    List.Sorted queueLE (reviewQueue input) := by
  constructor
  · intro x
    show x ∈ (collectReviewItems input).insertionSort queueLE ↔ _
    rw [List.Perm.mem_iff (List.perm_insertionSort queueLE (collectReviewItems input))]
    rw [collectReviewItems_eq]
    simp only [List.mem_flatMap, List.mem_map, List.mem_filter]
    constructor
    · rintro ⟨⟨p, ob⟩, hpb, t, ⟨ht, hq⟩, rfl⟩
      exact ⟨p, ob, t, hpb, ht, hq, rfl⟩
    · rintro ⟨p, ob, t, hpb, ht, hq, rfl⟩
      exact ⟨⟨p, ob⟩, hpb, t, ⟨ht, hq⟩, rfl⟩
  · exact List.sorted_insertionSort queueLE _

/-- C6 counterexample: a sam-required task in the completed state
`"completed"` is in the queue although the claim excludes completed states;
and a task with no priority ties with `"p3"` (the code defaults it) instead
of ranking after `"p3"`, so the more recently updated unprioritized item
sorts first. -/
theorem reviewQueue_claim_false_at_inputs :
    reviewQueue [(reviewProject,
        some { projectId := "proj-1", tasks := [samTaskCompleted] })] =
      [toReviewItem reviewProject samTaskCompleted] ∧
    samTaskCompleted.state = "completed" ∧
    samTaskCompleted.reviewType = some "sam-required" ∧
    reviewQueue [(reviewProject,
        some { projectId := "proj-1", tasks := [p3Task, noPriorityTask] })] =
      [toReviewItem reviewProject noPriorityTask, toReviewItem reviewProject p3Task] ∧
    noPriorityTask.priority = none ∧
    p3Task.priority = some "p3" := by
  decide

/-! ## C7: the column grouping -/

theorem col_addTask (g : ColumnGroups) (c c' : ColumnKey) (t : BoardTask) :
    (addTask g c t).col c' = g.col c' ++ (if c = c' then [t] else []) := by
  cases c <;> cases c' <;> simp [addTask, ColumnGroups.col]

theorem col_foldl_pushStep (sd : Bool) (sda : Int) (pd : String → Int)
    (tasks : List BoardTask) (g : ColumnGroups) (c : ColumnKey) :
    (tasks.foldl (pushStep sd sda pd) g).col c =
      g.col c ++ tasks.filter (fun t => keepTask sd sda pd t && (classify t.state == c)) := by
  induction tasks generalizing g with
  | nil => simp
  | cons t ts ih =>
    rw [List.foldl_cons, ih]
    cases hk : keepTask sd sda pd t with
    | false => simp [pushStep, hk, List.filter_cons]
    | true =>
      by_cases hc : classify t.state = c
      · simp [pushStep, hk, col_addTask, List.filter_cons, hc, List.append_assoc]
      · simp [pushStep, hk, col_addTask, List.filter_cons, hc]

theorem length_filter_classify (keep : BoardTask → Bool) (l : List BoardTask) :
    (l.filter keep).length =
      (l.filter (fun t => keep t && (classify t.state == ColumnKey.backlog))).length +
      (l.filter (fun t => keep t && (classify t.state == ColumnKey.planned))).length +
      (l.filter (fun t => keep t && (classify t.state == ColumnKey.inProgress))).length +
      (l.filter (fun t => keep t && (classify t.state == ColumnKey.review))).length +
      (l.filter (fun t => keep t && (classify t.state == ColumnKey.done))).length := by
  induction l with
  | nil => rfl
  | cons t ts ih =>
    simp only [List.filter_cons]
    cases hk : keep t with
    | false => simpa using ih
    | true => cases hc : classify t.state <;> simp [hk, hc, ih] <;> omega

theorem grouping_partition_core (tasks : List BoardTask) (sd sb : Bool) (sda : Int)
    (pd : String → Int) :
    ((truncateBacklog sb (sortCols (groupColsRaw tasks sd sda pd))).backlog.length +
      (truncateBacklog sb (sortCols (groupColsRaw tasks sd sda pd))).planned.length +
      (truncateBacklog sb (sortCols (groupColsRaw tasks sd sda pd))).inProgress.length +
      (truncateBacklog sb (sortCols (groupColsRaw tasks sd sda pd))).review.length +
      (truncateBacklog sb (sortCols (groupColsRaw tasks sd sda pd))).done.length =
      (tasks.filter (keepTask sd sda pd)).length -
        (if sb = false ∧ 10 < (tasks.filter (fun t =>
            keepTask sd sda pd t && (classify t.state == ColumnKey.backlog))).length
          then (tasks.filter (fun t =>
            keepTask sd sda pd t && (classify t.state == ColumnKey.backlog))).length - 10
          else 0)) ∧
    (∀ c t, t ∈ (truncateBacklog sb (sortCols (groupColsRaw tasks sd sda pd))).col c →
      t ∈ tasks ∧ keepTask sd sda pd t = true ∧ classify t.state = c) ∧
    (∀ t ∈ tasks, keepTask sd sda pd t = true →
      t ∈ (truncateBacklog sb (sortCols (groupColsRaw tasks sd sda pd))).col (classify t.state) ∨
        (classify t.state = ColumnKey.backlog ∧ sb = false ∧
          10 < (tasks.filter (fun t =>
            keepTask sd sda pd t && (classify t.state == ColumnKey.backlog))).length)) := by
  have hraw : ∀ c, (groupColsRaw tasks sd sda pd).col c =
      tasks.filter (fun t => keepTask sd sda pd t && (classify t.state == c)) := by
    intro c
    unfold groupColsRaw
    rw [col_foldl_pushStep]
    cases c <;> simp [ColumnGroups.col]
  have hsort : ∀ c, (sortCols (groupColsRaw tasks sd sda pd)).col c =
      ((groupColsRaw tasks sd sda pd).col c).insertionSort taskLE := by
    intro c; cases c <;> rfl
  have hperm : ∀ c, List.Perm ((sortCols (groupColsRaw tasks sd sda pd)).col c)
      (tasks.filter (fun t => keepTask sd sda pd t && (classify t.state == c))) := by
    intro c
    rw [hsort c, hraw c]
    exact List.perm_insertionSort _ _
  have hlen : ∀ c, ((sortCols (groupColsRaw tasks sd sda pd)).col c).length =
      (tasks.filter (fun t => keepTask sd sda pd t && (classify t.state == c))).length :=
    fun c => (hperm c).length_eq
  have hback : (sortCols (groupColsRaw tasks sd sda pd)).backlog =
      (sortCols (groupColsRaw tasks sd sda pd)).col ColumnKey.backlog := rfl
  have hcond : (!sb && decide
        (10 < (sortCols (groupColsRaw tasks sd sda pd)).backlog.length)) = true ↔
      (sb = false ∧ 10 < (tasks.filter (fun t =>
        keepTask sd sda pd t && (classify t.state == ColumnKey.backlog))).length) := by
    rw [hback, hlen ColumnKey.backlog]
    simp [Bool.and_eq_true, Bool.not_eq_true']
  have hsum := length_filter_classify (keepTask sd sda pd) tasks
  by_cases hc : sb = false ∧ 10 < (tasks.filter (fun t =>
      keepTask sd sda pd t && (classify t.state == ColumnKey.backlog))).length
  · have hg : truncateBacklog sb (sortCols (groupColsRaw tasks sd sda pd)) =
        { sortCols (groupColsRaw tasks sd sda pd) with
            backlog := (sortCols (groupColsRaw tasks sd sda pd)).backlog.take 10 } := by
      unfold truncateBacklog
      rw [if_pos (hcond.mpr hc)]
    refine ⟨?_, ?_, ?_⟩
    · rw [hg, if_pos hc]
      show ((sortCols (groupColsRaw tasks sd sda pd)).backlog.take 10).length +
        ((sortCols (groupColsRaw tasks sd sda pd)).col ColumnKey.planned).length +
        ((sortCols (groupColsRaw tasks sd sda pd)).col ColumnKey.inProgress).length +
        ((sortCols (groupColsRaw tasks sd sda pd)).col ColumnKey.review).length +
        ((sortCols (groupColsRaw tasks sd sda pd)).col ColumnKey.done).length = _
      rw [List.length_take, hback, hlen ColumnKey.backlog, hlen ColumnKey.planned,
        hlen ColumnKey.inProgress, hlen ColumnKey.review, hlen ColumnKey.done]
      omega
    · intro c t ht
      rw [hg] at ht
      have ht1 : t ∈ (sortCols (groupColsRaw tasks sd sda pd)).col c := by
        cases c with
        | backlog =>
          simp only [ColumnGroups.col] at ht ⊢
          exact List.mem_of_mem_take ht
        | planned => simpa [ColumnGroups.col] using ht
        | inProgress => simpa [ColumnGroups.col] using ht
        | review => simpa [ColumnGroups.col] using ht
        | done => simpa [ColumnGroups.col] using ht
      have ht2 := (hperm c).mem_iff.mp ht1
      rw [List.mem_filter] at ht2
      obtain ⟨htm, hcc⟩ := ht2
      rw [Bool.and_eq_true, beq_iff_eq] at hcc
      exact ⟨htm, hcc.1, hcc.2⟩
    · intro t htm hk
      by_cases hcb : classify t.state = ColumnKey.backlog
      · exact Or.inr ⟨hcb, hc.1, hc.2⟩
      · left
        have ht1 : t ∈ tasks.filter (fun x =>
            keepTask sd sda pd x && (classify x.state == classify t.state)) := by
          rw [List.mem_filter]
          exact ⟨htm, by simp [hk]⟩
        have ht2 := (hperm (classify t.state)).mem_iff.mpr ht1
        rw [hg]
        cases hcc : classify t.state with
        | backlog => exact absurd hcc hcb
        | planned => rw [hcc] at ht2; simpa [ColumnGroups.col] using ht2
        | inProgress => rw [hcc] at ht2; simpa [ColumnGroups.col] using ht2
        | review => rw [hcc] at ht2; simpa [ColumnGroups.col] using ht2
        | done => rw [hcc] at ht2; simpa [ColumnGroups.col] using ht2
  · have hg : truncateBacklog sb (sortCols (groupColsRaw tasks sd sda pd)) =
        sortCols (groupColsRaw tasks sd sda pd) := by
      unfold truncateBacklog
      rw [if_neg (fun hx => hc (hcond.mp hx))]
    refine ⟨?_, ?_, ?_⟩
    · rw [hg, if_neg hc]
      show ((sortCols (groupColsRaw tasks sd sda pd)).col ColumnKey.backlog).length +
        ((sortCols (groupColsRaw tasks sd sda pd)).col ColumnKey.planned).length +
        ((sortCols (groupColsRaw tasks sd sda pd)).col ColumnKey.inProgress).length +
        ((sortCols (groupColsRaw tasks sd sda pd)).col ColumnKey.review).length +
        ((sortCols (groupColsRaw tasks sd sda pd)).col ColumnKey.done).length = _
      rw [hlen ColumnKey.backlog, hlen ColumnKey.planned,
        hlen ColumnKey.inProgress, hlen ColumnKey.review, hlen ColumnKey.done]
      omega
    · intro c t ht
      rw [hg] at ht
      have ht2 := (hperm c).mem_iff.mp ht
      rw [List.mem_filter] at ht2
      obtain ⟨htm, hcc⟩ := ht2
      rw [Bool.and_eq_true, beq_iff_eq] at hcc
      exact ⟨htm, hcc.1, hcc.2⟩
    · intro t htm hk
      left
      have ht1 : t ∈ tasks.filter (fun x =>
          keepTask sd sda pd x && (classify x.state == classify t.state)) := by
        rw [List.mem_filter]
        exact ⟨htm, by simp [hk]⟩
      rw [hg]
      exact (hperm (classify t.state)).mem_iff.mpr ht1

/-- C7: `groupTasksByColumn` is total and partitions its input: the five
post-filter, post-truncation column lengths sum to the number of tasks that
survive the done-window filter, less the entries the backlog truncation
removed; every task placed in a column survived the filter and is in the
column its state classifies to; and every surviving task appears in its
column unless it was truncated out of an over-ten backlog. -/
theorem groupTasksByColumn_partition (tasks : List BoardTask) (sd sb : Bool)
    (now : Int) (parseDate : String → Int) :
    ((groupTasksByColumn tasks sd sb now parseDate).backlog.length +
      (groupTasksByColumn tasks sd sb now parseDate).planned.length +
      (groupTasksByColumn tasks sd sb now parseDate).inProgress.length +
      (groupTasksByColumn tasks sd sb now parseDate).review.length +
      (groupTasksByColumn tasks sd sb now parseDate).done.length =
      (tasks.filter (keepTask sd (now - 7 * 24 * 60 * 60 * 1000) parseDate)).length -
        (if sb = false ∧ 10 < (tasks.filter (fun t =>
            keepTask sd (now - 7 * 24 * 60 * 60 * 1000) parseDate t &&
              (classify t.state == ColumnKey.backlog))).length
          then (tasks.filter (fun t =>
            keepTask sd (now - 7 * 24 * 60 * 60 * 1000) parseDate t &&
              (classify t.state == ColumnKey.backlog))).length - 10
          else 0)) ∧
    (∀ c t, t ∈ (groupTasksByColumn tasks sd sb now parseDate).col c →
      t ∈ tasks ∧ keepTask sd (now - 7 * 24 * 60 * 60 * 1000) parseDate t = true ∧
        classify t.state = c) ∧
    (∀ t ∈ tasks, keepTask sd (now - 7 * 24 * 60 * 60 * 1000) parseDate t = true →
      t ∈ (groupTasksByColumn tasks sd sb now parseDate).col (classify t.state) ∨
        (classify t.state = ColumnKey.backlog ∧ sb = false ∧
          10 < (tasks.filter (fun t =>
            keepTask sd (now - 7 * 24 * 60 * 60 * 1000) parseDate t &&
              (classify t.state == ColumnKey.backlog))).length)) :=
  grouping_partition_core tasks sd sb (now - 7 * 24 * 60 * 60 * 1000) parseDate

/-! ## C9: standup parsing -/

theorem charsStartWith_of_append {l p q : List Char}
    (h : charsStartWith l (p ++ q) = true) : charsStartWith l p = true := by
  induction p generalizing l with
  | nil => exact charsStartWith_nil l
  | cons a as ih =>
    cases l with
    | nil => simp [charsStartWith] at h
    | cons c cs =>
      simp only [List.cons_append, charsStartWith, Bool.and_eq_true] at h ⊢
      exact ⟨h.1, ih h.2⟩

theorem bulletCond_collapse (tl : List Char) :
    (charsStartWith tl ("- **".data) || charsStartWith tl ("- ".data)) =
      charsStartWith tl ("- ".data) := by
  cases h4 : charsStartWith tl ("- **".data) with
  | false => simp
  | true =>
    have he : ("- **".data) = ("- ".data) ++ ("**".data) := by decide
    have h2 : charsStartWith tl ("- ".data) = true := charsStartWith_of_append (he ▸ h4)
    simp [h2]

theorem standupStep_matches (secs : StandupSections) (cur : Option SecName) (line : List Char) :
    standupStep (secs, encodeSec cur) line =
      ((specStandupStep (secs, cur) line).1, encodeSec (specStandupStep (secs, cur) line).2) := by
  simp only [standupStep, specStandupStep, lineKind]
  rw [bulletCond_collapse (trimChars line)]
  rcases cur with _ | sec
  · split_ifs <;> first | rfl | (exfalso; simp_all [encodeSec])
  · cases sec <;> (split_ifs <;> first | rfl | (exfalso; simp_all [encodeSec]))

theorem foldl_standup_matches (lines : List (List Char)) (secs : StandupSections)
    (cur : Option SecName) :
    lines.foldl standupStep (secs, encodeSec cur) =
      ((lines.foldl specStandupStep (secs, cur)).1,
        encodeSec (lines.foldl specStandupStep (secs, cur)).2) := by
  induction lines generalizing secs cur with
  | nil => rfl
  | cons l ls ih =>
    rw [List.foldl_cons, List.foldl_cons, standupStep_matches]
    exact ih (specStandupStep (secs, cur) l).1 (specStandupStep (secs, cur) l).2

/-- C9 (amended): `parseStandup` never fails and implements exactly the line
machine in which a line containing a section keyword or marker switches the
current section — even when that line is itself a bullet — while every other
line whose trimmed form starts with `"- "` is appended, with the bullet
marker and all `**` markup stripped, to whichever section is current; bullet
lines before any heading and all remaining lines are dropped. -/
theorem parseStandup_matches_line_machine (content : String) :
    parseStandup content = specParseStandup content := by
  unfold parseStandup specParseStandup
  exact congrArg Prod.fst
    (foldl_standup_matches (splitChar '\n' content.data) ⟨[], [], []⟩ none)

/-- C9 counterexample: a bullet line containing the keyword `Completed` is
treated as a heading and switches the section instead of being appended to
the current (in-progress) section, so every derived section stays empty. -/
theorem standup_bullet_with_keyword_not_appended :
    parseStandup "🔨 In Progress\n- Completed task" = ⟨[], [], []⟩ ∧
    charsStartWith (trimChars ("- Completed task".data)) ("- ".data) = true := by
  decide

end MissionControl
